import Mathlib

/-!
Verification of the KOL analytics service layer
(`backend/app/services/kol_service.py`) against its specification.

The profile record (`KOL` Pydantic model), the query engine
(`get_kols_filtered`), the lookup (`get_kol_by_id`) and the statistics
engine (`compute_stats` with its helpers `_find_highest_ratio_kol`,
`_analyze_data_quality`, `_empty_stats`) are shallowly embedded as pure
Lean functions.  Python `int` is modelled by `Int`, Python `float`
ratios/averages by `Rat` (exact arithmetic standing in for IEEE floats),
Python `None` by `Option`, and a raised `ValueError` by `Except.error`.
Python's `list.sort` (Timsort) is modelled by Mathlib's stable
`List.insertionSort`: both produce the unique sorted permutation that
keeps the original relative order of elements with equal sort keys.
-/

namespace KolAnalytics

/-- The `KOL` Pydantic model from `app/models/kol.py`: required string
fields, optional city and optional numeric fields (`Optional[int]`). -/
structure KOL where
  id : String
  name : String
  affiliation : String
  country : String
  city : Option String := none
  expertise_area : String
  publications_count : Option Int := none
  h_index : Option Int := none
  citations : Option Int := none
deriving DecidableEq, Repr

/-- `CountryCount` from `app/models/stats.py`. -/
structure CountryCount where
  country : String
  count : Nat
deriving DecidableEq, Repr

/-- `HighestCitationsPerPublicationKOL` from `app/models/stats.py`;
`ratio` is a Python float, modelled exactly by `Rat`. -/
structure HighestCitationsPerPublicationKOL where
  id : String
  name : String
  ratio : Rat
  citations : Int
  publications_count : Int := 0
deriving DecidableEq, Repr

/-- `KOLStats` from `app/models/stats.py`. -/
structure KOLStats where
  total_kols : Nat
  unique_countries : Nat
  total_publications : Int
  avg_h_index : Rat
  top10_countries_by_kol_count : List CountryCount
  highest_citations_per_publication_kol : HighestCitationsPerPublicationKOL
  data_quality_issues : List String
deriving DecidableEq, Repr

/-- Python `x or d` on an optional int: falsy (`None` or `0`) falls back
to the default `d`. -/
def pyOrInt (o : Option Int) (d : Int) : Int :=
  match o with
  | some v => if v = 0 then d else v
  | none => d

/-- Leading match of `needle` against `hay` (both as char lists). -/
def charsMatchAt : List Char → List Char → Bool
  | _, [] => true
  | [], _ :: _ => false
  | a :: ha, b :: nb => a == b && charsMatchAt ha nb

/-- Python's substring containment `needle in hay` on char lists. -/
def charsContain : List Char → List Char → Bool
  | [], needle => needle.isEmpty
  | a :: t, needle => charsMatchAt (a :: t) needle || charsContain t needle

/-- Python `needle in hay` for strings (substring containment). -/
def pyContains (hay needle : String) : Bool :=
  charsContain hay.data needle.data

/-- Python `str.lower()` (modelled on the ASCII range via
`Char.toLower`, which is all the repository's data exercises). -/
def pyLower (s : String) : String :=
  String.map Char.toLower s

/-- The second component of the numeric sort key built at
`kol_service.py:170-176`: an integer, or one of the two infinities that
`float('-inf')` / `float('inf')` produce. -/
inductive NumKey where
  | ninf : NumKey
  | fin : Int → NumKey
  | pinf : NumKey
deriving DecidableEq, Repr

/-- Float comparison on the sort-key value (`-inf < ints < inf`). -/
def NumKey.le : NumKey → NumKey → Bool
  | .ninf, _ => true
  | .fin _, .ninf => false
  | .fin a, .fin b => a ≤ b
  | .fin _, .pinf => true
  | .pinf, .pinf => true
  | .pinf, _ => false

/-- The sort key tuple `(getattr(x, f) is None, getattr(x, f) or
(float('-inf') if not reverse else float('inf')))` from
`kol_service.py:171-174`.  Note Python's `or` sends the value `0`, not
just `None`, to the infinity fallback. -/
def sortKey (reverse : Bool) (f : KOL → Option Int) (k : KOL) : Bool × NumKey :=
  ((f k).isNone,
    match f k with
    | some v => if v = 0 then (if reverse then .pinf else .ninf) else .fin v
    | none => if reverse then .pinf else .ninf)

/-- Python tuple `<=` on a `(bool, float)` key, lexicographic with
`False < True`. -/
def keyLe (a b : Bool × NumKey) : Bool :=
  (!a.1 && b.1) || (a.1 == b.1 && NumKey.le a.2 b.2)

/-- Ascending comparison used by `result.sort(key=..., reverse=False)`
on a numeric field. -/
def ascRel (f : KOL → Option Int) (a b : KOL) : Prop :=
  keyLe (sortKey false f a) (sortKey false f b) = true

/-- Descending comparison: Python's stable sort with `reverse=True`
orders by the reversed key comparison while keeping equal keys in
original order, which is exactly stable insertion sort on the flipped
relation. -/
def descRel (f : KOL → Option Int) (a b : KOL) : Prop :=
  keyLe (sortKey true f b) (sortKey true f a) = true

instance (f : KOL → Option Int) : DecidableRel (ascRel f) :=
  fun _ _ => inferInstanceAs (Decidable (_ = true))

instance (f : KOL → Option Int) : DecidableRel (descRel f) :=
  fun _ _ => inferInstanceAs (Decidable (_ = true))

/-- Ascending name comparison (`result.sort(key=lambda x: x.name)`). -/
def nameAsc (a b : KOL) : Prop := a.name ≤ b.name

/-- Descending name comparison (`reverse=True`). -/
def nameDesc (a b : KOL) : Prop := b.name ≤ a.name

instance : DecidableRel nameAsc :=
  fun a b => inferInstanceAs (Decidable (a.name ≤ b.name))

instance : DecidableRel nameDesc :=
  fun a b => inferInstanceAs (Decidable (b.name ≤ a.name))

/-- `result.sort(key=numeric key, reverse=reverse)` from
`kol_service.py:170-176`. -/
def numericSort (reverse : Bool) (f : KOL → Option Int) (l : List KOL) : List KOL :=
  if reverse then List.insertionSort (descRel f) l else List.insertionSort (ascRel f) l

/-- `result.sort(key=lambda x: x.name, reverse=reverse)` from
`kol_service.py:167`. -/
def nameSort (reverse : Bool) (l : List KOL) : List KOL :=
  if reverse then List.insertionSort nameDesc l else List.insertionSort nameAsc l

/-- Python slice `xs[o:]` (negative start counts from the end). -/
def pySliceFrom (xs : List KOL) (o : Int) : List KOL :=
  if 0 ≤ o then xs.drop o.toNat else xs.drop ((xs.length : Int) + o).toNat

/-- Python slice `xs[:t]` (negative stop counts from the end). -/
def pySliceTo (xs : List KOL) (t : Int) : List KOL :=
  if 0 ≤ t then xs.take t.toNat else xs.take ((xs.length : Int) + t).toNat

/-- The pagination tail of `get_kols_filtered`
(`kol_service.py:178-183`): `if offset > 0: result = result[offset:]`
then `if limit is not None: result = result[:limit]`. -/
def paginate (xs : List KOL) (limit : Option Int) (offset : Int) : List KOL :=
  let r := if 0 < offset then pySliceFrom xs offset else xs
  match limit with
  | some t => pySliceTo r t
  | none => r

/-- `valid_sort_fields` from `kol_service.py:153`. -/
def validSortFields : List String :=
  ["publications_count", "citations", "h_index", "name"]

/-- `getattr(x, sort_by)` for the three numeric sort fields. -/
def numField : String → KOL → Option Int
  | "publications_count" => fun k => k.publications_count
  | "citations" => fun k => k.citations
  | "h_index" => fun k => k.h_index
  | _ => fun _ => none

/-- `KOLService.get_kols_filtered` (`kol_service.py:103-185`).
Python's truthiness tests `if country:` etc. skip a filter both for
`None` and for the empty string; `if sort_by:` likewise skips the whole
sort block (including the order check).  A raised `ValueError` is
modelled as `Except.error`. -/
def getKolsFiltered (kols : List KOL) (country expertise_area search sort_by : Option String)
    (order : String) (limit : Option Int) (offset : Int) : Except String (List KOL) :=
  let r1 := match country with
    | some c => if c.isEmpty then kols else kols.filter (fun k => k.country == c)
    | none => kols
  let r2 := match expertise_area with
    | some e => if e.isEmpty then r1 else r1.filter (fun k => k.expertise_area == e)
    | none => r1
  let r3 := match search with
    | some s => if s.isEmpty then r2 else
        r2.filter (fun k =>
          pyContains (pyLower k.name) (pyLower s) ||
          pyContains (pyLower k.affiliation) (pyLower s))
    | none => r2
  match sort_by with
  | some sb =>
      if sb.isEmpty then Except.ok (paginate r3 limit offset)
      else if !(validSortFields.contains sb) then
        Except.error ("Invalid sort_by field: " ++ sb)
      else if !(order == "asc" || order == "desc") then
        Except.error ("Invalid order: " ++ order ++ ". Must be 'asc' or 'desc'")
      else
        let reverse := order == "desc"
        let sorted := if sb == "name" then nameSort reverse r3
          else numericSort reverse (numField sb) r3
        Except.ok (paginate sorted limit offset)
  | none => Except.ok (paginate r3 limit offset)

/-- `KOLService.get_kol_by_id` (`kol_service.py:187-196`): linear scan
returning the first record with the given id, `None` if absent. -/
def getKolById (kols : List KOL) (kol_id : String) : Option KOL :=
  kols.find? (fun k => k.id == kol_id)

/-- Round to nearest integer, ties to even, as Python's `round` does. -/
def roundHalfEven (q : Rat) : Int :=
  let f : Int := ⌊q⌋
  let r : Rat := q - (f : Rat)
  if r < 1 / 2 then f
  else if 1 / 2 < r then f + 1
  else if f % 2 = 0 then f else f + 1

/-- Python `round(x, 2)` (exact-rational model of the float rounding). -/
def round2 (q : Rat) : Rat :=
  (roundHalfEven (q * 100) : Rat) / 100

/-- The guard and ratio of the scan in `_find_highest_ratio_kol`
(`kol_service.py:260-266`): `some (citations / publications_count)` when
both fields are present and the publications count is positive. -/
def ratioOf (k : KOL) : Option Rat :=
  match k.citations, k.publications_count with
  | some c, some p => if 0 < p then some ((c : Rat) / (p : Rat)) else none
  | _, _ => none

/-- The `for kol in self._kols` loop of `_find_highest_ratio_kol`
(`kol_service.py:257-269`), carrying `best_kol` and `best_ratio` and
replacing them only on a strictly greater ratio. -/
def bestLoop : Option KOL → Rat → List KOL → Option KOL × Rat
  | b, m, [] => (b, m)
  | b, m, k :: t =>
    match ratioOf k with
    | some r => if m < r then bestLoop (some k) r t else bestLoop b m t
    | none => bestLoop b m t

/-- The fallback record built at `kol_service.py:281-287`. -/
def sentinelHighest : HighestCitationsPerPublicationKOL :=
  { id := "", name := "N/A", ratio := 0, citations := 0, publications_count := 0 }

/-- `KOLService._find_highest_ratio_kol` (`kol_service.py:246-287`):
run the scan from `best_kol=None, best_ratio=0.0`; summarize the winner
(`best_kol.citations or 0` is `pyOrInt`), or return the sentinel. -/
def findHighestRatioKol (kols : List KOL) : HighestCitationsPerPublicationKOL :=
  match bestLoop none 0 kols with
  | (some k, m) =>
      { id := k.id, name := k.name, ratio := round2 m,
        citations := pyOrInt k.citations 0,
        publications_count := pyOrInt k.publications_count 0 }
  | (none, _) => sentinelHighest

/-- Distinct values of a list in order of first occurrence — the
iteration order of a Python `Counter`/`dict` keyed by these values. -/
def firstOccs : List String → List String
  | [] => []
  | c :: t => c :: (firstOccs t).filter (fun x => x != c)

/-- Number of records from the given country
(`Counter(kol.country for kol in self._kols)[c]`). -/
def countryCount (kols : List KOL) (c : String) : Nat :=
  kols.countP (fun k => k.country == c)

/-- The `Counter` items `(country, count)` in first-encounter order. -/
def countryPairs (kols : List KOL) : List (String × Nat) :=
  (firstOccs (kols.map (fun k => k.country))).map (fun c => (c, countryCount kols c))

/-- Descending-count comparison used to model
`Counter.most_common(10)`, which is a stable descending sort by count
(CPython's `heapq.nlargest` breaks ties toward earlier items) followed
by `take 10`. -/
def countDescRel (a b : String × Nat) : Prop := b.2 ≤ a.2

instance : DecidableRel countDescRel :=
  fun a b => inferInstanceAs (Decidable (b.2 ≤ a.2))

/-- `country_counts.most_common(10)` mapped to `CountryCount`
(`kol_service.py:224-228`). -/
def top10Countries (kols : List KOL) : List CountryCount :=
  ((List.insertionSort countDescRel (countryPairs kols)).take 10).map
    (fun p => { country := p.1, count := p.2 })

/-- `KOLService._analyze_data_quality` (`kol_service.py:289-340`): the
conditionally appended findings, in source order.  `str.strip()` is
modelled by `String.trim`. -/
def analyzeDataQuality (kols : List KOL) : List String :=
  let missingPubs := kols.countP (fun k => k.publications_count.isNone)
  let missingCitations := kols.countP (fun k => k.citations.isNone)
  let missingHIndex := kols.countP (fun k => k.h_index.isNone)
  let zeroPubs := kols.countP (fun k =>
    k.publications_count == some 0 && 0 < pyOrInt k.h_index 0)
  let emptyNames := kols.countP (fun k => k.name.trim.isEmpty)
  let emptyCountries := kols.countP (fun k => k.country.trim.isEmpty)
  let ids := kols.map (fun k => k.id)
  let duplicateIds := ids.length - (firstOccs ids).length
  let issues :=
    (if 0 < missingPubs then
      [toString missingPubs ++ " KOL(s) with missing publications count"] else []) ++
    (if 0 < missingCitations then
      [toString missingCitations ++ " KOL(s) with missing citations"] else []) ++
    (if 0 < missingHIndex then
      [toString missingHIndex ++ " KOL(s) with missing h-index"] else []) ++
    (if 0 < zeroPubs then
      [toString zeroPubs ++ " KOL(s) with 0 publications but positive h-index"] else []) ++
    (if 0 < emptyNames then
      [toString emptyNames ++ " KOL(s) with empty names"] else []) ++
    (if 0 < emptyCountries then
      [toString emptyCountries ++ " KOL(s) with empty countries"] else []) ++
    (if 0 < duplicateIds then
      [toString duplicateIds ++ " duplicate KOL ID(s) found"] else [])
  if issues.isEmpty then ["No significant data quality issues detected"] else issues

/-- `KOLService._empty_stats` (`kol_service.py:342-358`). -/
def emptyStats : KOLStats :=
  { total_kols := 0
    unique_countries := 0
    total_publications := 0
    avg_h_index := 0
    top10_countries_by_kol_count := []
    highest_citations_per_publication_kol := sentinelHighest
    data_quality_issues := ["No data loaded"] }

/-- `KOLService.compute_stats` (`kol_service.py:198-244`). -/
def computeStats (kols : List KOL) : KOLStats :=
  if kols.isEmpty then emptyStats
  else
    let hIndices := kols.filterMap (fun k => k.h_index)
    let avgH : Rat :=
      if hIndices.isEmpty then 0 else (hIndices.sum : Rat) / (hIndices.length : Rat)
    { total_kols := kols.length
      unique_countries := (firstOccs (kols.map (fun k => k.country))).length
      total_publications := (kols.filterMap (fun k => k.publications_count)).sum
      avg_h_index := round2 avgH
      top10_countries_by_kol_count := top10Countries kols
      highest_citations_per_publication_kol := findHighestRatioKol kols
      data_quality_issues := analyzeDataQuality kols }

/-- The `KOLService` object: its only state is the record list loaded
into `self._kols` at construction. -/
structure KOLService where
  kols : List KOL
deriving DecidableEq, Repr

/-- State-passing view of `get_kols_filtered`: the method reads
`self._kols` (copying it before the in-place sort) and performs no
assignment to `self`, so the outgoing state is the incoming one. -/
def KOLService.getKolsFilteredM (s : KOLService)
    (country expertise_area search sort_by : Option String)
    (order : String) (limit : Option Int) (offset : Int) :
    Except String (List KOL) × KOLService :=
  (getKolsFiltered s.kols country expertise_area search sort_by order limit offset, s)

/-- State-passing view of `get_kol_by_id`. -/
def KOLService.getKolByIdM (s : KOLService) (kol_id : String) :
    Option KOL × KOLService :=
  (getKolById s.kols kol_id, s)

/-- State-passing view of `compute_stats`. -/
def KOLService.computeStatsM (s : KOLService) : KOLStats × KOLService :=
  (computeStats s.kols, s)

/-- Position of the value absent / zero / nonzero in the descending
numeric sort: the group index the sorted output is partitioned into. -/
def rankOf (f : KOL → Option Int) (k : KOL) : Nat :=
  match f k with
  | none => 0
  | some v => if v = 0 then 1 else 2

/-- A record with every numeric field present, used as concrete input
for witnesses. -/
def sampleUS : KOL :=
  { id := "u1", name := "Ann", affiliation := "Lab", country := "US",
    expertise_area := "Derm", publications_count := some 4,
    h_index := some 2, citations := some 5 }

/-- A record with every numeric field absent. -/
def sampleNull : KOL :=
  { id := "u2", name := "Bob", affiliation := "Inst", country := "FR",
    expertise_area := "Derm" }

/-- A record that qualifies for the ratio scan but has ratio zero. -/
def zeroRatioKol : KOL :=
  { id := "z1", name := "Zed", affiliation := "Clinic", country := "DE",
    expertise_area := "Derm", publications_count := some 3,
    h_index := some 1, citations := some 0 }

/-! ### Stability of the sort model

Python's `list.sort` is stable; `List.insertionSort` is too.  The form
of stability the claims need: filtering the sorted output by any
predicate whose satisfying elements are mutually related recovers the
filter of the input in its original order. -/

theorem orderedInsert_filter_eq {α : Type} (r : α → α → Prop) [DecidableRel r]
    (x : α) (p : α → Bool) (hx : ∀ y, p x = true → p y = true → r x y) :
    ∀ s : List α, (List.orderedInsert r x s).filter p =
      if p x then x :: s.filter p else s.filter p := by
  intro s
  induction s with
  | nil => cases hpx : p x <;> simp [List.orderedInsert, List.filter, hpx]
  | cons y t ih =>
    by_cases hrxy : r x y
    · cases hpx : p x <;>
        simp [List.orderedInsert, if_pos hrxy, List.filter_cons, hpx]
    · cases hpx : p x with
      | false =>
        simp only [List.orderedInsert, if_neg hrxy, List.filter_cons, ih, hpx]
        cases hpy : p y <;> simp
      | true =>
        have hpy : p y = false := by
          cases hpy : p y
          · rfl
          · exact absurd (hx y hpx hpy) hrxy
        simp [List.orderedInsert, if_neg hrxy, List.filter_cons, hpy, ih, hpx]

theorem insertionSort_filter_eq {α : Type} (r : α → α → Prop) [DecidableRel r]
    (p : α → Bool) (hp : ∀ x y, p x = true → p y = true → r x y) :
    ∀ l : List α, (List.insertionSort r l).filter p = l.filter p := by
  intro l
  induction l with
  | nil => rfl
  | cons a l ih =>
    have h := orderedInsert_filter_eq r a p (fun y => hp a y) (List.insertionSort r l)
    simp only [List.insertionSort, h, ih, List.filter_cons]

theorem firstOccs_nodup : ∀ l : List String, (firstOccs l).Nodup := by
  intro l
  induction l with
  | nil => simp [firstOccs]
  | cons c t ih =>
    simp only [firstOccs, List.nodup_cons]
    refine ⟨fun hmem => ?_, ih.filter _⟩
    have := (List.mem_filter.mp hmem).2
    simp at this

theorem numKeyLe_total (x y : NumKey) :
    NumKey.le x y = true ∨ NumKey.le y x = true := by
  cases x <;> cases y <;> simp [NumKey.le] <;> omega

theorem numKeyLe_trans {x y z : NumKey} (h1 : NumKey.le x y = true)
    (h2 : NumKey.le y z = true) : NumKey.le x z = true := by
  cases x <;> cases y <;> cases z <;> simp_all [NumKey.le] <;> omega

theorem keyLe_total (a b : Bool × NumKey) :
    keyLe a b = true ∨ keyLe b a = true := by
  rcases a with ⟨a1, a2⟩
  rcases b with ⟨b1, b2⟩
  cases a1 <;> cases b1 <;> simp [keyLe] <;> exact numKeyLe_total _ _

theorem keyLe_trans {a b c : Bool × NumKey} (h1 : keyLe a b = true)
    (h2 : keyLe b c = true) : keyLe a c = true := by
  rcases a with ⟨a1, a2⟩
  rcases b with ⟨b1, b2⟩
  rcases c with ⟨c1, c2⟩
  cases a1 <;> cases b1 <;> cases c1 <;> simp_all [keyLe] <;>
    exact numKeyLe_trans h1 h2

instance (f : KOL → Option Int) : IsTotal KOL (descRel f) :=
  ⟨fun a b => (keyLe_total (sortKey true f a) (sortKey true f b)).symm⟩

instance (f : KOL → Option Int) : IsTrans KOL (descRel f) :=
  ⟨fun _ _ _ h1 h2 => keyLe_trans h2 h1⟩

/-- What one step of the descending sort order means in terms of the
claim's grouping: group ranks never decrease along the output, and
among two nonzero present values the later one is no larger. -/
theorem descRel_imp (f : KOL → Option Int) (a b : KOL) (h : descRel f a b) :
    rankOf f a ≤ rankOf f b ∧
    ∀ va vb, f a = some va → f b = some vb → va ≠ 0 → vb ≠ 0 → vb ≤ va := by
  unfold descRel at h
  rcases hfa : f a with _ | va
  · constructor
    · simp [rankOf, hfa]
    · intro va vb h1 _ _ _
      exact Option.noConfusion h1
  · rcases hfb : f b with _ | vb
    · exfalso
      simp [keyLe, sortKey, hfa, hfb] at h
    · by_cases hva : va = 0
      · constructor
        · by_cases hvb : vb = 0 <;> simp [rankOf, hfa, hfb, hva, hvb]
        · intro va' vb' h1 _ h3 _
          obtain rfl := Option.some.inj h1
          exact absurd hva h3
      · by_cases hvb : vb = 0
        · exfalso
          simp [keyLe, sortKey, hfa, hfb, hva, hvb, NumKey.le] at h
        · constructor
          · simp [rankOf, hfa, hfb, hva, hvb]
          · intro va' vb' h1 h2 _ _
            obtain rfl := Option.some.inj h1
            obtain rfl := Option.some.inj h2
            simpa [keyLe, sortKey, hfa, hfb, hva, hvb, NumKey.le] using h

/-- Permutation, grouping order and per-group stability of the
descending numeric sort `result.sort(key=..., reverse=True)`. -/
theorem descSort_grouping (f : KOL → Option Int) (l : List KOL) :
    List.Perm (List.insertionSort (descRel f) l) l ∧
    (List.insertionSort (descRel f) l).Pairwise (fun a b =>
      rankOf f a ≤ rankOf f b ∧
      ∀ va vb, f a = some va → f b = some vb → 0 < va → 0 < vb →
        vb ≤ va) ∧
    (List.insertionSort (descRel f) l).filter (fun k => (f k).isNone) =
      l.filter (fun k => (f k).isNone) ∧
    (List.insertionSort (descRel f) l).filter (fun k => f k == some 0) =
      l.filter (fun k => f k == some 0) ∧
    ∀ v : Int, 0 < v →
      (List.insertionSort (descRel f) l).filter (fun k => f k == some v) =
        l.filter (fun k => f k == some v) := by
  refine ⟨List.perm_insertionSort (descRel f) l, ?_, ?_, ?_, ?_⟩
  · exact (List.sorted_insertionSort (descRel f) l).imp (fun h =>
      ⟨(descRel_imp f _ _ h).1, fun va vb h1 h2 h3 h4 =>
        (descRel_imp f _ _ h).2 va vb h1 h2 (ne_of_gt h3) (ne_of_gt h4)⟩)
  · refine insertionSort_filter_eq (descRel f) _ ?_ l
    intro x y hx hy
    have hx' : f x = none := Option.isNone_iff_eq_none.mp hx
    have hy' : f y = none := Option.isNone_iff_eq_none.mp hy
    simp [descRel, keyLe, sortKey, hx', hy', NumKey.le]
  · refine insertionSort_filter_eq (descRel f) _ ?_ l
    intro x y hx hy
    have hx' : f x = some 0 := by simpa using hx
    have hy' : f y = some 0 := by simpa using hy
    simp [descRel, keyLe, sortKey, hx', hy', NumKey.le]
  · intro v hv
    refine insertionSort_filter_eq (descRel f) _ ?_ l
    intro x y hx hy
    have hx' : f x = some v := by simpa using hx
    have hy' : f y = some v := by simpa using hy
    have hv0 : v ≠ 0 := ne_of_gt hv
    simp [descRel, keyLe, sortKey, hx', hy', hv0, NumKey.le]

theorem paginate_none_zero (xs : List KOL) : paginate xs none 0 = xs := rfl

theorem paginate_spec (xs : List KOL) (lim off : Int) (hoff : 0 ≤ off)
    (hlim : 1 ≤ lim) :
    paginate xs (some lim) off = (xs.drop off.toNat).take lim.toNat := by
  have h2 : (0 : Int) ≤ lim := le_trans (by norm_num) hlim
  by_cases h : (0 : Int) < off
  · simp only [paginate, pySliceFrom, pySliceTo, if_pos h, if_pos hoff,
      if_pos h2]
  · have hz : off = 0 := le_antisymm (not_lt.mp h) hoff
    subst hz
    simp [paginate, pySliceTo, if_pos h2]

/-- Pagination commutes with the rest of `get_kols_filtered`: the
paginated call is the unpaginated call post-composed with `paginate`. -/
theorem getKolsFiltered_paginate_map (l : List KOL) (c e s sb : Option String)
    (ord : String) (lim : Option Int) (off : Int) :
    getKolsFiltered l c e s sb ord lim off =
      (getKolsFiltered l c e s sb ord none 0).map
        (fun xs => paginate xs lim off) := by
  unfold getKolsFiltered
  cases sb with
  | none => simp [Except.map, paginate_none_zero]
  | some sb' =>
    by_cases hs : sb'.isEmpty <;> by_cases hv : sb' ∈ validSortFields <;>
      by_cases ho : (ord == "asc" || ord == "desc") = true <;>
        simp [hs, hv, ho, Except.map, paginate_none_zero]

/-- Full characterization of the `_find_highest_ratio_kol` scan: from
accumulator `(b, m)` it either returns the accumulator unchanged (when
no ratio exceeds `m`) or returns the first record whose ratio equals
the maximum ratio, that maximum exceeding `m`. -/
theorem bestLoop_char : ∀ (l : List KOL) (b : Option KOL) (m : Rat),
    (bestLoop b m l = (b, m) ∧ ∀ k ∈ l, ∀ r, ratioOf k = some r → r ≤ m) ∨
    (∃ k r l1 l2, l = l1 ++ k :: l2 ∧ ratioOf k = some r ∧ m < r ∧
      (∀ j ∈ l, ∀ s, ratioOf j = some s → s ≤ r) ∧
      (∀ j ∈ l1, ∀ s, ratioOf j = some s → s < r) ∧
      bestLoop b m l = (some k, r)) := by
  intro l
  induction l with
  | nil =>
    intro b m
    exact Or.inl ⟨rfl, by simp⟩
  | cons k t ih =>
    intro b m
    rcases hr : ratioOf k with _ | r0
    · have hstep : bestLoop b m (k :: t) = bestLoop b m t := by
        simp [bestLoop, hr]
      rcases ih b m with ⟨h1, h2⟩ | ⟨k', r', l1, l2, heq, hr', hlt, hub, hpre, hres⟩
      · refine Or.inl ⟨hstep.trans h1, ?_⟩
        intro j hj s hs
        rcases List.mem_cons.mp hj with rfl | hj'
        · rw [hr] at hs; cases hs
        · exact h2 j hj' s hs
      · refine Or.inr ⟨k', r', k :: l1, l2, by rw [heq, List.cons_append],
          hr', hlt, ?_, ?_, hstep.trans hres⟩
        · intro j hj s hs
          rcases List.mem_cons.mp hj with rfl | hj'
          · rw [hr] at hs; cases hs
          · exact hub j hj' s hs
        · intro j hj s hs
          rcases List.mem_cons.mp hj with rfl | hj'
          · rw [hr] at hs; cases hs
          · exact hpre j hj' s hs
    · by_cases hm : m < r0
      · have hstep : bestLoop b m (k :: t) = bestLoop (some k) r0 t := by
          simp [bestLoop, hr, hm]
        rcases ih (some k) r0 with ⟨h1, h2⟩ | ⟨k', r', l1, l2, heq, hr', hlt, hub, hpre, hres⟩
        · refine Or.inr ⟨k, r0, [], t, rfl, hr, hm, ?_, by simp,
            hstep.trans h1⟩
          intro j hj s hs
          rcases List.mem_cons.mp hj with rfl | hj'
          · rw [hr] at hs
            exact le_of_eq (Option.some.inj hs).symm
          · exact h2 j hj' s hs
        · refine Or.inr ⟨k', r', k :: l1, l2, by rw [heq, List.cons_append],
            hr', lt_trans hm hlt, ?_, ?_, hstep.trans hres⟩
          · intro j hj s hs
            rcases List.mem_cons.mp hj with rfl | hj'
            · rw [hr] at hs
              have hs0 : s = r0 := (Option.some.inj hs).symm
              exact le_of_lt (hs0 ▸ hlt)
            · exact hub j hj' s hs
          · intro j hj s hs
            rcases List.mem_cons.mp hj with rfl | hj'
            · rw [hr] at hs
              have hs0 : s = r0 := (Option.some.inj hs).symm
              exact hs0 ▸ hlt
            · exact hpre j hj' s hs
      · have hstep : bestLoop b m (k :: t) = bestLoop b m t := by
          simp [bestLoop, hr, hm]
        have hr0m : r0 ≤ m := not_lt.mp hm
        rcases ih b m with ⟨h1, h2⟩ | ⟨k', r', l1, l2, heq, hr', hlt, hub, hpre, hres⟩
        · refine Or.inl ⟨hstep.trans h1, ?_⟩
          intro j hj s hs
          rcases List.mem_cons.mp hj with rfl | hj'
          · rw [hr] at hs
            exact (Option.some.inj hs).symm ▸ hr0m
          · exact h2 j hj' s hs
        · refine Or.inr ⟨k', r', k :: l1, l2, by rw [heq, List.cons_append],
            hr', hlt, ?_, ?_, hstep.trans hres⟩
          · intro j hj s hs
            rcases List.mem_cons.mp hj with rfl | hj'
            · rw [hr] at hs
              have hs0 : s = r0 := (Option.some.inj hs).symm
              exact le_of_lt (lt_of_le_of_lt (hs0 ▸ hr0m) hlt)
            · exact hub j hj' s hs
          · intro j hj s hs
            rcases List.mem_cons.mp hj with rfl | hj'
            · rw [hr] at hs
              have hs0 : s = r0 := (Option.some.inj hs).symm
              exact lt_of_le_of_lt (hs0 ▸ hr0m) hlt
            · exact hpre j hj' s hs

instance : IsTotal (String × Nat) countDescRel :=
  ⟨fun a b => Nat.le_total b.2 a.2⟩

instance : IsTrans (String × Nat) countDescRel :=
  ⟨fun _ _ _ h1 h2 => le_trans h2 h1⟩

theorem countryPairs_map_fst (l : List KOL) :
    (countryPairs l).map Prod.fst = firstOccs (l.map (fun k => k.country)) := by
  unfold countryPairs
  rw [List.map_map]
  exact List.map_id _

/-- The counter items are listed in strictly increasing first-encounter
position: the tie-break order `most_common` preserves. -/
theorem countryPairs_pairwise_indexOf (l : List KOL) :
    (countryPairs l).Pairwise (fun p q =>
      (firstOccs (l.map (fun k => k.country))).indexOf p.1 <
        (firstOccs (l.map (fun k => k.country))).indexOf q.1) := by
  have hnd : (firstOccs (l.map (fun k => k.country))).Nodup :=
    firstOccs_nodup _
  have hDpw : (firstOccs (l.map (fun k => k.country))).Pairwise (fun c c' =>
      (firstOccs (l.map (fun k => k.country))).indexOf c <
        (firstOccs (l.map (fun k => k.country))).indexOf c') := by
    rw [List.pairwise_iff_getElem]
    intro i j hi hj hij
    rw [List.indexOf_getElem hnd i hi, List.indexOf_getElem hnd j hj]
    exact hij
  exact List.pairwise_map.mpr hDpw

/-- The sorted counter list is stable on count classes: filtering the
sorted pairs by any fixed count recovers the first-encounter order. -/
theorem sortedPairs_filter_count (l : List KOL) (n : Nat) :
    (List.insertionSort countDescRel (countryPairs l)).filter
        (fun p => decide (p.2 = n)) =
      (countryPairs l).filter (fun p => decide (p.2 = n)) := by
  refine insertionSort_filter_eq countDescRel _ ?_ (countryPairs l)
  intro x y hx hy
  have hx' : x.2 = n := of_decide_eq_true hx
  have hy' : y.2 = n := of_decide_eq_true hy
  unfold countDescRel
  rw [hx', hy']

theorem computeStats_top10 (l : List KOL) :
    (computeStats l).top10_countries_by_kol_count = top10Countries l := by
  by_cases h : l.isEmpty
  · have hnil : l = [] := by
      cases l
      · rfl
      · cases h
    subst hnil
    rfl
  · simp [computeStats, h]

theorem computeStats_highest (l : List KOL) :
    (computeStats l).highest_citations_per_publication_kol =
      findHighestRatioKol l := by
  by_cases h : l.isEmpty
  · have hnil : l = [] := by
      cases l
      · rfl
      · cases h
    subst hnil
    rfl
  · simp [computeStats, h]

/-! ### Claim theorems -/

/-- C1: the code contradicts its own comment "None values go to end".
With `sort_by="citations"` and `order="desc"`, a record whose
citations field is absent is placed BEFORE a record with the field
present: the descending sort reverses the `is None` key component, so
nulls come first, not last. -/
theorem c1_desc_places_null_first :
    getKolsFiltered [sampleUS, sampleNull] none none none (some "citations")
      "desc" none 0 = Except.ok [sampleNull, sampleUS] := by
  rfl

/-- C3 (counterexample to the claim as stated, at the explicit input
C = ""): the country filter is skipped for the empty string, so the
result contains a record whose country differs from C. -/
theorem c3_counterexample :
    getKolsFiltered [sampleUS] (some "") none none none "asc" none 0 =
      Except.ok [sampleUS] ∧ sampleUS.country ≠ "" := by
  exact ⟨rfl, by decide⟩

/-- C3 (amended): for every non-empty country string C, the result of
`get_kols_filtered(country=C)` is sound (every returned record has
country C) and exhaustive (every stored record with country C is
returned). -/
theorem c3_country_filter_sound_exhaustive (l : List KOL) (C : String)
    (hC : C ≠ "") :
    ∃ res, getKolsFiltered l (some C) none none none "asc" none 0 =
        Except.ok res ∧
      (∀ k ∈ res, k.country = C) ∧ (∀ k ∈ l, k.country = C → k ∈ res) := by
  have hCe : C.isEmpty = false := by
    cases h : C.isEmpty
    · rfl
    · exact absurd ((String.isEmpty_iff C).mp h) hC
  refine ⟨l.filter (fun k => k.country == C), ?_, ?_, ?_⟩
  · simp [getKolsFiltered, paginate, hCe]
  · intro k hk
    have := (List.mem_filter.mp hk).2
    simpa using this
  · intro k hk hkc
    exact List.mem_filter.mpr ⟨hk, by simpa using hkc⟩

/-- Witness for the amended C3 at a concrete store and country. -/
theorem c3_witness :
    ∃ res, getKolsFiltered [sampleUS, sampleNull] (some "US") none none none
        "asc" none 0 = Except.ok res ∧
      (∀ k ∈ res, k.country = "US") ∧
      (∀ k ∈ [sampleUS, sampleNull], k.country = "US" → k ∈ res) :=
  c3_country_filter_sound_exhaustive [sampleUS, sampleNull] "US" (by decide)

/-- C4 (counterexample to the claim as stated): with no sort field
supplied, an invalid order value is silently ignored and the call
succeeds instead of failing with a validation error. -/
theorem c4_counterexample :
    getKolsFiltered [sampleUS] none none none none "bogus" none 0 =
      Except.ok [sampleUS] := by
  rfl

/-- C4 (amended): whenever a non-empty sort field is supplied, any
order value other than "asc" and "desc" makes `get_kols_filtered` fail
with a validation error, for all choices of the other parameters. -/
theorem c4_invalid_order_rejected (l : List KOL) (c e s : Option String)
    (sb : String) (order : String) (lim : Option Int) (off : Int)
    (hsb : sb ≠ "") (h1 : order ≠ "asc") (h2 : order ≠ "desc") :
    ∃ msg, getKolsFiltered l c e s (some sb) order lim off =
      Except.error msg := by
  have hsbe : sb.isEmpty = false := by
    cases h : sb.isEmpty
    · rfl
    · exact absurd ((String.isEmpty_iff sb).mp h) hsb
  have hord : (order == "asc" || order == "desc") = false := by
    simp [h1, h2]
  by_cases hc : sb ∈ validSortFields
  · exact ⟨"Invalid order: " ++ order ++ ". Must be 'asc' or 'desc'",
      by simp [getKolsFiltered, hsbe, hc, h1, h2]⟩
  · exact ⟨"Invalid sort_by field: " ++ sb,
      by simp [getKolsFiltered, hsbe, hc]⟩

/-- Witness for the amended C4 at a concrete input. -/
theorem c4_witness :
    ∃ msg, getKolsFiltered [sampleUS] none none none (some "citations")
      "bogus" none 0 = Except.error msg :=
  c4_invalid_order_rejected [sampleUS] none none none "citations" "bogus"
    none 0 (by decide) (by decide) (by decide)

/-- C2 (counterexample to the claim as stated): a record with
citations 0 and publications 3 qualifies (both fields present,
positive publications, ratio 0), yet `compute_stats` returns the
sentinel — the scan starts from `best_ratio = 0.0` with a strict
comparison, so a qualifying maximum ratio of 0 is never selected and
the "sentinel iff no record qualifies" biconditional fails. -/
theorem c2_counterexample :
    zeroRatioKol.citations = some 0 ∧
    zeroRatioKol.publications_count = some 3 ∧
    ratioOf zeroRatioKol = some 0 ∧
    (computeStats [zeroRatioKol]).highest_citations_per_publication_kol =
      sentinelHighest := by
  have hr0 : ratioOf zeroRatioKol = some 0 := by
    norm_num [ratioOf, zeroRatioKol]
  refine ⟨rfl, rfl, hr0, ?_⟩
  rw [computeStats_highest]
  unfold findHighestRatioKol
  simp [bestLoop, hr0]

/-- C2 (amended): `compute_stats` returns the sentinel iff no
qualifying record has a strictly positive ratio; otherwise it returns
the summary of the first record (in store order) attaining the maximum
citations ÷ publications ratio — the strict-greater scan makes the
first maximum win ties, but also makes a qualifying maximum of exactly
0 fall through to the sentinel. -/
theorem c2_highest_ratio_characterization (l : List KOL) :
    ((computeStats l).highest_citations_per_publication_kol =
        sentinelHighest ∧
      ∀ k ∈ l, ∀ r, ratioOf k = some r → r ≤ 0) ∨
    (∃ k r l1 l2, l = l1 ++ k :: l2 ∧ ratioOf k = some r ∧ 0 < r ∧
      (∀ j ∈ l, ∀ s, ratioOf j = some s → s ≤ r) ∧
      (∀ j ∈ l1, ∀ s, ratioOf j = some s → s < r) ∧
      (computeStats l).highest_citations_per_publication_kol =
        { id := k.id, name := k.name, ratio := round2 r,
          citations := pyOrInt k.citations 0,
          publications_count := pyOrInt k.publications_count 0 }) := by
  have hcs := computeStats_highest l
  rcases bestLoop_char l none 0 with ⟨h1, h2⟩ |
    ⟨k, r, l1, l2, heq, hr, hpos, hub, hpre, hres⟩
  · left
    refine ⟨?_, h2⟩
    rw [hcs]
    unfold findHighestRatioKol
    rw [h1]
  · right
    refine ⟨k, r, l1, l2, heq, hr, hpos, hub, hpre, ?_⟩
    rw [hcs]
    unfold findHighestRatioKol
    rw [hres]

/-- C5: the top-10 country list of `compute_stats` has one entry per
country (no duplicates), counts that are the true record counts, at
most 10 entries (exactly `min 10 #countries`), is sorted by count
descending, breaks ties among equal counts by first-encounter order in
the stored sequence, and omits no country whose count exceeds a listed
one. -/
theorem c5_top10_countries (l : List KOL) :
    ((computeStats l).top10_countries_by_kol_count).length =
      min 10 (firstOccs (l.map (fun k => k.country))).length ∧
    (∀ p ∈ (computeStats l).top10_countries_by_kol_count,
      p.count = countryCount l p.country ∧
      p.country ∈ firstOccs (l.map (fun k => k.country))) ∧
    ((computeStats l).top10_countries_by_kol_count.map
        (fun p => p.country)).Nodup ∧
    ((computeStats l).top10_countries_by_kol_count).Pairwise
      (fun a b => b.count ≤ a.count) ∧
    ((computeStats l).top10_countries_by_kol_count).Pairwise
      (fun a b => a.count = b.count →
        (firstOccs (l.map (fun k => k.country))).indexOf a.country <
          (firstOccs (l.map (fun k => k.country))).indexOf b.country) ∧
    (∀ c ∈ firstOccs (l.map (fun k => k.country)),
      c ∉ (computeStats l).top10_countries_by_kol_count.map
          (fun p => p.country) →
      ∀ p ∈ (computeStats l).top10_countries_by_kol_count,
        countryCount l c ≤ p.count) := by
  rw [computeStats_top10]
  unfold top10Countries
  have hperm := List.perm_insertionSort countDescRel (countryPairs l)
  have hpw := List.sorted_insertionSort countDescRel (countryPairs l)
  refine ⟨?_, ?_, ?_, ?_, ?_, ?_⟩
  · simp [List.length_take, hperm.length_eq, countryPairs]
  · intro p hp
    obtain ⟨q, hq, rfl⟩ := List.mem_map.mp hp
    have hq1 : q ∈ List.insertionSort countDescRel (countryPairs l) :=
      List.take_subset 10 _ hq
    have hq2 : q ∈ countryPairs l := hperm.mem_iff.mp hq1
    unfold countryPairs at hq2
    obtain ⟨c, hc, rfl⟩ := List.mem_map.mp hq2
    exact ⟨rfl, hc⟩
  · rw [List.map_map]
    have h1 : ((List.insertionSort countDescRel (countryPairs l)).map
        Prod.fst).Nodup := by
      rw [(hperm.map Prod.fst).nodup_iff, countryPairs_map_fst]
      exact firstOccs_nodup _
    have h2 : List.Sublist
        (((List.insertionSort countDescRel (countryPairs l)).take 10).map
          Prod.fst)
        ((List.insertionSort countDescRel (countryPairs l)).map Prod.fst) :=
      (List.take_sublist 10 _).map _
    exact h1.sublist h2
  · rw [List.pairwise_map]
    exact List.Pairwise.sublist (List.take_sublist 10 _) hpw
  · rw [List.pairwise_map]
    have hcomb : ∀ n : Nat,
        (List.insertionSort countDescRel (countryPairs l)).Pairwise
          (fun x y => x.2 = n → y.2 = n →
            (firstOccs (l.map (fun k => k.country))).indexOf x.1 <
              (firstOccs (l.map (fun k => k.country))).indexOf y.1) := by
      intro n
      have hf : ((List.insertionSort countDescRel (countryPairs l)).filter
          (fun p => decide (p.2 = n))).Pairwise (fun p q =>
            (firstOccs (l.map (fun k => k.country))).indexOf p.1 <
              (firstOccs (l.map (fun k => k.country))).indexOf q.1) := by
        rw [sortedPairs_filter_count l n]
        exact (countryPairs_pairwise_indexOf l).filter _
      exact List.pairwise_filter.mp hf
    have hsortedT : (List.insertionSort countDescRel
        (countryPairs l)).Pairwise (fun p q => p.2 = q.2 →
          (firstOccs (l.map (fun k => k.country))).indexOf p.1 <
            (firstOccs (l.map (fun k => k.country))).indexOf q.1) := by
      rw [List.pairwise_iff_getElem]
      intro i j hi hj hij heq
      have h := (List.pairwise_iff_getElem.mp
        (hcomb ((List.insertionSort countDescRel
          (countryPairs l))[i].2))) i j hi hj hij
      exact h rfl heq.symm
    exact List.Pairwise.sublist (List.take_sublist 10 _) hsortedT
  · intro c hc hnot p hp
    have hcp : (c, countryCount l c) ∈ countryPairs l := by
      unfold countryPairs
      exact List.mem_map.mpr ⟨c, hc, rfl⟩
    have hcs : (c, countryCount l c) ∈
        List.insertionSort countDescRel (countryPairs l) :=
      hperm.mem_iff.mpr hcp
    have hsplit := List.take_append_drop 10
      (List.insertionSort countDescRel (countryPairs l))
    have hpw2 : ((List.insertionSort countDescRel (countryPairs l)).take 10 ++
        (List.insertionSort countDescRel (countryPairs l)).drop 10).Pairwise
          countDescRel := by
      rw [hsplit]
      exact hpw
    have hcross := (List.pairwise_append.mp hpw2).2.2
    have hmem2 : (c, countryCount l c) ∈
        (List.insertionSort countDescRel (countryPairs l)).take 10 ++
          (List.insertionSort countDescRel (countryPairs l)).drop 10 := by
      rw [hsplit]
      exact hcs
    rcases List.mem_append.mp hmem2 with hin | hin
    · exfalso
      apply hnot
      rw [List.map_map]
      exact List.mem_map.mpr ⟨(c, countryCount l c), hin, rfl⟩
    · obtain ⟨q, hq, rfl⟩ := List.mem_map.mp hp
      exact hcross q hq _ hin

/-- C6: for offset o ≥ 0 and limit l ≥ 1, the paginated call equals the
l-element slice starting at index o of the unpaginated result of the
same call; an offset at or beyond the sequence length yields the empty
sequence, not an error. -/
theorem c6_pagination_composition (l : List KOL) (c e s sb : Option String)
    (ord : String) (lim off : Int) (hoff : 0 ≤ off) (hlim : 1 ≤ lim) :
    getKolsFiltered l c e s sb ord (some lim) off =
      (getKolsFiltered l c e s sb ord none 0).map
        (fun res => (res.drop off.toNat).take lim.toNat) ∧
    (∀ res, getKolsFiltered l c e s sb ord none 0 = Except.ok res →
      res.length ≤ off.toNat →
      getKolsFiltered l c e s sb ord (some lim) off = Except.ok []) := by
  have hmap := getKolsFiltered_paginate_map l c e s sb ord (some lim) off
  have hfun : (fun xs => paginate xs (some lim) off) =
      (fun res : List KOL => (res.drop off.toNat).take lim.toNat) :=
    funext fun xs => paginate_spec xs lim off hoff hlim
  constructor
  · rw [hmap, hfun]
  · intro res hres hlen
    rw [hmap, hfun, hres]
    simp [Except.map, List.drop_eq_nil_of_le hlen]

/-- Witness for C6 at a concrete store, offset 1 and limit 1. -/
theorem c6_witness :
    getKolsFiltered [sampleUS, sampleNull] none none none none "asc"
        (some 1) 1 =
      (getKolsFiltered [sampleUS, sampleNull] none none none none "asc"
          none 0).map
        (fun res => (res.drop (1 : Int).toNat).take (1 : Int).toNat) ∧
    (∀ res, getKolsFiltered [sampleUS, sampleNull] none none none none "asc"
        none 0 = Except.ok res →
      res.length ≤ (1 : Int).toNat →
      getKolsFiltered [sampleUS, sampleNull] none none none none "asc"
        (some 1) 1 = Except.ok []) :=
  c6_pagination_composition [sampleUS, sampleNull] none none none none "asc"
    1 1 (by decide) (by decide)

/-- C7: on an empty record list, `compute_stats` returns exactly the
bundle with all counts zero, average 0.0, empty top-10 list, the
sentinel highest-ratio record named "N/A", and the single
data-quality entry "No data loaded". -/
theorem c7_empty_stats :
    computeStats [] =
      { total_kols := 0, unique_countries := 0, total_publications := 0,
        avg_h_index := 0, top10_countries_by_kol_count := [],
        highest_citations_per_publication_kol :=
          { id := "", name := "N/A", ratio := 0, citations := 0,
            publications_count := 0 },
        data_quality_issues := ["No data loaded"] } := by
  rfl

/-- C8: `get_kols_filtered`, `get_kol_by_id` and `compute_stats` leave
the stored record sequence `_kols` unchanged — they only read the
store (copying before the in-place sort) and never assign to it. -/
theorem c8_operations_preserve_store (s : KOLService)
    (country expertise_area search sort_by : Option String) (order : String)
    (limit : Option Int) (offset : Int) (kol_id : String) :
    (s.getKolsFilteredM country expertise_area search sort_by order limit
        offset).2.kols = s.kols ∧
    (s.getKolByIdM kol_id).2.kols = s.kols ∧
    s.computeStatsM.2.kols = s.kols :=
  ⟨rfl, rfl, rfl⟩

/-- C9: sorting by a numeric field with order "desc" yields: records
with the field absent first, then records with value 0, then records
with positive values in non-increasing order (both `None` and `0` are
keyed as positive infinity by `getattr(...) or float('inf')`, with the
`is None` component reversed), and the pre-sort relative order is
preserved inside each group (stable sort). -/
theorem c9_desc_numeric_grouping (l : List KOL) (sb : String)
    (hsb : sb = "publications_count" ∨ sb = "citations" ∨ sb = "h_index") :
    ∃ out, getKolsFiltered l none none none (some sb) "desc" none 0 =
        Except.ok out ∧
      List.Perm out l ∧
      out.Pairwise (fun a b =>
        rankOf (numField sb) a ≤ rankOf (numField sb) b ∧
        ∀ va vb, numField sb a = some va → numField sb b = some vb →
          0 < va → 0 < vb → vb ≤ va) ∧
      out.filter (fun k => (numField sb k).isNone) =
        l.filter (fun k => (numField sb k).isNone) ∧
      out.filter (fun k => numField sb k == some 0) =
        l.filter (fun k => numField sb k == some 0) ∧
      (∀ v : Int, 0 < v →
        out.filter (fun k => numField sb k == some v) =
          l.filter (fun k => numField sb k == some v)) := by
  rcases hsb with rfl | rfl | rfl <;>
    exact ⟨List.insertionSort (descRel (numField _)) l, rfl,
      descSort_grouping (numField _) l⟩

/-- Witness for C9 at a concrete store and the citations field. -/
theorem c9_witness :
    ∃ out, getKolsFiltered [sampleUS, sampleNull] none none none
        (some "citations") "desc" none 0 = Except.ok out ∧
      List.Perm out [sampleUS, sampleNull] ∧
      out.Pairwise (fun a b =>
        rankOf (numField "citations") a ≤ rankOf (numField "citations") b ∧
        ∀ va vb, numField "citations" a = some va →
          numField "citations" b = some vb → 0 < va → 0 < vb → vb ≤ va) ∧
      out.filter (fun k => (numField "citations" k).isNone) =
        [sampleUS, sampleNull].filter
          (fun k => (numField "citations" k).isNone) ∧
      out.filter (fun k => numField "citations" k == some 0) =
        [sampleUS, sampleNull].filter
          (fun k => numField "citations" k == some 0) ∧
      (∀ v : Int, 0 < v →
        out.filter (fun k => numField "citations" k == some v) =
          [sampleUS, sampleNull].filter
            (fun k => numField "citations" k == some v)) :=
  c9_desc_numeric_grouping [sampleUS, sampleNull] "citations"
    (Or.inr (Or.inl rfl))

/-- C10: supplying `country`, `expertise_area` or `search` as the empty
string behaves exactly as omitting the parameter — Python's truthiness
test skips the filter for `""` just as for `None`. -/
theorem c10_empty_string_like_omitted (l : List KOL) (c e s sb : Option String)
    (order : String) (lim : Option Int) (off : Int) :
    getKolsFiltered l (some "") e s sb order lim off =
        getKolsFiltered l none e s sb order lim off ∧
    getKolsFiltered l c (some "") s sb order lim off =
        getKolsFiltered l c none s sb order lim off ∧
    getKolsFiltered l c e (some "") sb order lim off =
        getKolsFiltered l c e none sb order lim off :=
  ⟨rfl, rfl, rfl⟩

end KolAnalytics
